import Mathlib

/-!
Verification of the `shapes` core of the burn-contracts repository:
a shape-pattern language (named dimensions, one optional ellipsis,
composite product dimensions), its nom-based string parser, a cached
parser, a binding-source abstraction, and the `match_bindings` matcher.

The definitions below are a shallow embedding of the Rust source:

  * `src/shapes/exp.rs`      — `ShapePattern`, `PatternComponent`,
    `ShapePatternError`, `ShapeMatch`, `ShapeMatchError`, `Display`
    impls, `check_ellipsis_pos`, `ShapePattern::match_bindings`;
  * `src/shapes/parser.rs`   — `parse_shape_pattern`,
    `cached_parse_shape_pattern` and the nom sub-parsers;
  * `src/shapes/bindings.rs` — `lookup_shape_binding`,
    `collect_binding_map`.

Modelling conventions:

  * `usize` values are modelled as `Nat`; no claim exercises overflow.
  * Rust `HashMap<String, usize>` is modelled as an association list
    with insert-overwrite semantics (`mapInsert` / `mapLookup`): the
    map operations used by the source are only `get` and `insert`
    (plus building a map from an iterator, which is a fold of inserts,
    so a later duplicate key overwrites an earlier one, exactly as in
    `HashMap::from_iter`).  Entry order in the list is a deterministic
    stand-in for the hash order, which the source never observes.
  * A Rust panic (out-of-bounds slice index, `Option::unwrap` on
    `None`, integer remainder by zero) is modelled as an explicit
    `panicked` outcome, distinct from returning an error value.
  * nom parsers become functions `List Char → Option (α × List Char)`
    returning the unconsumed remainder; the two iterating combinators
    (`separated_list1`, `many1(terminated ..)`) take an explicit fuel
    argument, always called with fuel exceeding the recursion depth
    (each iteration consumes at least one character).
-/

/-! ### Character classes (nom `alpha1`, `alphanumeric1`, `multispace`, Rust `str::trim`) -/

/-- nom `multispace0/1` character set: space, tab, carriage return, line feed. -/
def isSpaceCh (c : Char) : Bool :=
  c == ' ' || c == '\t' || c == '\n' || c == '\r'

/-- nom `alpha1` character set: ASCII letters. -/
def isAlphaCh (c : Char) : Bool :=
  (0x41 ≤ c.toNat && c.toNat ≤ 0x5A) || (0x61 ≤ c.toNat && c.toNat ≤ 0x7A)

/-- ASCII digits, as matched by nom `alphanumeric1` beyond the letters. -/
def isDigitCh (c : Char) : Bool :=
  0x30 ≤ c.toNat && c.toNat ≤ 0x39

/-- First character of an identifier: `alt((alpha1, tag("_")))`. -/
def isIdentStartCh (c : Char) : Bool :=
  isAlphaCh c || c == '_'

/-- Continuation character of an identifier: `alt((alphanumeric1, tag("_")))`. -/
def isIdentCh (c : Char) : Bool :=
  isAlphaCh c || isDigitCh c || c == '_'

/-- Rust `char::is_whitespace`: the Unicode `White_Space` property. -/
def isRustWhitespace (c : Char) : Bool :=
  (0x9 ≤ c.toNat && c.toNat ≤ 0xD) || c.toNat == 0x20 || c.toNat == 0x85 ||
  c.toNat == 0xA0 || c.toNat == 0x1680 ||
  (0x2000 ≤ c.toNat && c.toNat ≤ 0x200A) || c.toNat == 0x2028 ||
  c.toNat == 0x2029 || c.toNat == 0x202F || c.toNat == 0x205F ||
  c.toNat == 0x3000

/-- Rust `str::trim`: strip leading and trailing whitespace. -/
def rustTrim (s : String) : String :=
  ⟨((s.data.dropWhile isRustWhitespace).reverse.dropWhile isRustWhitespace).reverse⟩

/-! ### Data model (`src/shapes/exp.rs`) -/

/-- `PatternComponent`: a named dimension, the ellipsis, or a composite
(product) group of named factors. -/
inductive PatternComponent where
  | dim (id : String)
  | ellipsis
  | composite (ids : List String)
deriving DecidableEq

/-- `ShapePattern`: the stored ellipsis position plus the component list. -/
structure ShapePattern where
  ellipsis_pos : Option Nat
  components : List PatternComponent
deriving DecidableEq

/-- `ShapePatternError`: `ParseError { input }` or `InvalidPattern { input, error }`. -/
inductive ShapePatternError where
  | parseError (input : String)
  | invalidPattern (input : String) (error : String)
deriving DecidableEq

/-- `ShapeMatchError`: the source's single placeholder variant `Todo(String)`. -/
inductive ShapeMatchError where
  | todo (msg : String)
deriving DecidableEq

/-- `ShapeMatch`: copied shape, export bindings, optional half-open ellipsis
range (modelled as a start/end pair). -/
structure ShapeMatch where
  shape : List Nat
  bindings : List (String × Nat)
  ellipsis_range : Option (Nat × Nat)
deriving DecidableEq

/-! ### Display (`impl Display for PatternComponent` / `ShapePattern`) -/

/-- Body of the `Composite` case of `Display for PatternComponent`:
each id is written followed by one space. -/
def compositeIdsDisplay : List String → String
  | [] => ""
  | id :: rest => id ++ " " ++ compositeIdsDisplay rest

/-- `Display for PatternComponent`. -/
def componentDisplay : PatternComponent → String
  | PatternComponent.dim id => id
  | PatternComponent.ellipsis => "..."
  | PatternComponent.composite ids => "(" ++ compositeIdsDisplay ids ++ ")"

/-- Concatenation of the component displays with no separator, as in
`Display for ShapePattern` and in the `InvalidPattern` payload of
`check_ellipsis_pos`. -/
def componentsToString : List PatternComponent → String
  | [] => ""
  | c :: rest => componentDisplay c ++ componentsToString rest

/-- `Display for ShapePattern` (`to_display_string`). -/
def ShapePattern.displayStr (p : ShapePattern) : String :=
  componentsToString p.components

/-! ### `check_ellipsis_pos` and constructors -/

/-- Loop body of `check_ellipsis_pos`: walk the components with an index,
recording the ellipsis position, failing on a second ellipsis.  `full` is
the complete component list, used to build the error payload. -/
def checkEllipsisAux (full : List PatternComponent) :
    List PatternComponent → Nat → Option Nat → Except ShapePatternError (Option Nat)
  | [], _, pos => Except.ok pos
  | c :: rest, i, pos =>
    match c with
    | PatternComponent.ellipsis =>
      match pos with
      | some _ =>
        Except.error (ShapePatternError.invalidPattern (componentsToString full)
          "Only one ellipsis is allowed")
      | none => checkEllipsisAux full rest (i + 1) (some i)
    | _ => checkEllipsisAux full rest (i + 1) pos

/-- `check_ellipsis_pos`: position of the unique ellipsis, or an
`InvalidPattern` error when there are two or more. -/
def check_ellipsis_pos (components : List PatternComponent) :
    Except ShapePatternError (Option Nat) :=
  checkEllipsisAux components components 0 none

/-- `ShapePattern::new`. -/
def ShapePattern.new (components : List PatternComponent) :
    Except ShapePatternError ShapePattern :=
  match check_ellipsis_pos components with
  | Except.ok pos => Except.ok ⟨pos, components⟩
  | Except.error e => Except.error e

/-- Test used by the `ellipsis_pos` method. -/
def isEllipsisComp : PatternComponent → Bool
  | PatternComponent.ellipsis => true
  | _ => false

/-- The `ShapePattern::ellipsis_pos` method: position of the first
ellipsis component (recomputed; the stored field is ignored). -/
def ShapePattern.ellipsisPos (p : ShapePattern) : Option Nat :=
  List.findIdx? isEllipsisComp p.components

/-- Number of ellipsis components in a list. -/
def countEllipsis (cs : List PatternComponent) : Nat :=
  cs.countP isEllipsisComp

/-! ### Parser (`src/shapes/parser.rs`) -/

/-- `ident_parser`: `recognize(pair(alt((alpha1, tag("_"))),
many0(alt((alphanumeric1, tag("_"))))))` — maximal run of identifier
characters whose first character is a letter or underscore. -/
def identP : List Char → Option (String × List Char)
  | [] => none
  | c :: cs =>
    if isIdentStartCh c then
      some (⟨c :: cs.takeWhile isIdentCh⟩, cs.dropWhile isIdentCh)
    else none

/-- `ellipsis_parser`: `tag("...")`. -/
def ellipsisP (input : List Char) : Option (List Char) :=
  match input with
  | c1 :: c2 :: c3 :: rest =>
    if c1 == '.' && c2 == '.' && c3 == '.' then some rest else none
  | _ => none

/-- nom `multispace1`: requires at least one whitespace character and
consumes the maximal run. -/
def ws1 : List Char → Option (List Char)
  | [] => none
  | c :: cs => if isSpaceCh c then some (cs.dropWhile isSpaceCh) else none

/-- `separated_list1(multispace1, ident_parser)`: one or more identifiers
separated by whitespace; a trailing separator not followed by an
identifier is left unconsumed (nom backtracks the separator).  The fuel
bounds the recursion depth; each step consumes at least one character,
so any fuel larger than the id count (callers pass input length + 1)
gives the exact nom semantics. -/
def identListP : Nat → List Char → Option (List String × List Char)
  | 0, _ => none
  | Nat.succ fuel, input =>
    match identP input with
    | none => none
    | some (id, rest) =>
      match ws1 rest with
      | none => some ([id], rest)
      | some rest2 =>
        match identListP fuel rest2 with
        | some (ids, rest3) => some (id :: ids, rest3)
        | none => some ([id], rest)

/-- `composite_parser`: `delimited(terminated(tag("("), multispace0),
separated_list1(multispace1, ident_parser), preceded(multispace0, tag(")")))`. -/
def compositeP (input : List Char) : Option (PatternComponent × List Char) :=
  match input with
  | c :: rest =>
    if c == '(' then
      let rest1 := rest.dropWhile isSpaceCh
      match identListP (rest1.length + 1) rest1 with
      | none => none
      | some (ids, rest2) =>
        match rest2.dropWhile isSpaceCh with
        | c2 :: rest3 => if c2 == ')' then some (PatternComponent.composite ids, rest3) else none
        | [] => none
    else none
  | [] => none

/-- `alt((ellipsis_parser, dim_parser, composite_parser))`. -/
def componentP (input : List Char) : Option (PatternComponent × List Char) :=
  match ellipsisP input with
  | some rest => some (PatternComponent.ellipsis, rest)
  | none =>
    match identP input with
    | some (id, rest) => some (PatternComponent.dim id, rest)
    | none => compositeP input

/-- `components_parser`: `many1(terminated(alt(..), multispace0))`.
Fuel bounds the number of components; each component consumes at least
one character, so the caller's `input length + 1` is always enough. -/
def componentsP : Nat → List Char → Option (List PatternComponent × List Char)
  | 0, _ => none
  | Nat.succ fuel, input =>
    match componentP input with
    | none => none
    | some (c, rest) =>
      let rest1 := rest.dropWhile isSpaceCh
      match componentsP fuel rest1 with
      | some (cs, rest2) => some (c :: cs, rest2)
      | none => some ([c], rest1)

/-- `parse_shape_pattern`: trim, run `components_parser`, require the
remainder empty, and validate via `ShapePattern::new`. -/
def parse_shape_pattern (input : String) : Except ShapePatternError ShapePattern :=
  match componentsP ((rustTrim input).data.length + 1) (rustTrim input).data with
  | some (cs, []) => ShapePattern.new cs
  | some (_, _ :: _) => Except.error (ShapePatternError.parseError input)
  | none => Except.error (ShapePatternError.parseError input)

/-! ### Binding maps (`src/shapes/bindings.rs` and `HashMap` model) -/

/-- `HashMap::get`, on the association-list model. -/
def mapLookup {α : Type} (m : List (String × α)) (k : String) : Option α :=
  (m.find? (fun kv => kv.1 == k)).map (fun kv => kv.2)

/-- `HashMap::insert`: overwrite the existing entry for the key, or append. -/
def mapInsert {α : Type} (k : String) (v : α) : List (String × α) → List (String × α)
  | [] => [(k, v)]
  | kv :: rest => if kv.1 == k then (k, v) :: rest else kv :: mapInsert k v rest

/-- Default `ShapeBindingSource::lookup_shape_binding` for a pair list:
linear scan returning the first entry with the requested name. -/
def lookup_shape_binding (src : List (String × Nat)) (name : String) : Option Nat :=
  (src.find? (fun kv => kv.1 == name)).map (fun kv => kv.2)

/-- `collect_binding_map`: collect the pair iterator into a `HashMap`
(a fold of inserts, so a later duplicate overwrites an earlier one). -/
def collect_binding_map (src : List (String × Nat)) : List (String × Nat) :=
  src.foldl (fun m kv => mapInsert kv.1 kv.2 m) []

/-! ### Cached parser (`cached_parse_shape_pattern`) -/

/-- `quick_cache` `get_or_insert_with`: return the cached value if
present; otherwise run the closure, caching (only) a success. -/
def cache_get_or_insert_with (cache : List (String × ShapePattern)) (key : String)
    (f : Unit → Except ShapePatternError ShapePattern) :
    Except ShapePatternError ShapePattern × List (String × ShapePattern) :=
  match mapLookup cache key with
  | some p => (Except.ok p, cache)
  | none =>
    match f () with
    | Except.ok p => (Except.ok p, mapInsert key p cache)
    | Except.error e => (Except.error e, cache)

/-- `cached_parse_shape_pattern`, with the cache state explicit.  (In the
source `PARSE_CACHE` is declared `const`, so every call actually
constructs a fresh empty cache; the empty cache is one instance of the
state passed here.) -/
def cached_parse_shape_pattern (cache : List (String × ShapePattern)) (input : String) :
    Except ShapePatternError ShapePattern × List (String × ShapePattern) :=
  cache_get_or_insert_with cache input (fun _ => parse_shape_pattern input)

/-- A cache state is valid when every stored entry is the successful
parse of its key — the invariant maintained by `get_or_insert_with`. -/
def ValidCache (cache : List (String × ShapePattern)) : Prop :=
  ∀ k p, mapLookup cache k = some p → parse_shape_pattern k = Except.ok p

/-! ### Matcher (`ShapePattern::match_bindings`) -/

/-- Outcome of a call that can return, error, or panic.  `panicked`
models a Rust process abort (out-of-bounds index, `unwrap` on `None`,
remainder by zero); the source's only non-panicking results are
`Ok(ShapeMatch)` and `Err(ShapeMatchError)`. -/
inductive MatchOutcome where
  | panicked
  | error (e : ShapeMatchError)
  | ok (m : ShapeMatch)
deriving DecidableEq

/-- Result of the component walk inside `match_bindings`. -/
inductive LoopResult where
  | panicked
  | fail (e : ShapeMatchError)
  | done (target : List (String × Nat))
deriving DecidableEq

/-- The nested `readthrough_lookup` helper: check the export map first,
then the external bindings, copying an externally found value into the
export map. -/
def readthrough_lookup (bindings target : List (String × Nat)) (id : String) :
    Option Nat × List (String × Nat) :=
  match mapLookup target id with
  | some v => (some v, target)
  | none =>
    match mapLookup bindings id with
    | some v => (some v, mapInsert id v target)
    | none => (none, target)

/-- The `for factor in ids` loop of the `Composite` arm: accumulate the
product of resolved factors, tracking at most one unbound factor. -/
def compositeFold (bindings : List (String × Nat)) :
    List String → Nat → Option String → List (String × Nat) →
    Except ShapeMatchError (Nat × Option String × List (String × Nat))
  | [], acc, unbound, target => Except.ok (acc, unbound, target)
  | factor :: rest, acc, unbound, target =>
    match readthrough_lookup bindings target factor with
    | (some v, target1) => compositeFold bindings rest (acc * v) unbound target1
    | (none, target1) =>
      match unbound with
      | some _ => Except.error (ShapeMatchError.todo "Multiple Unbound")
      | none => compositeFold bindings rest acc (some factor) target1

/-- The `for component in &self.components` loop of `match_bindings`.
`shape[i]` is read before the component is inspected (source line
`let dim_shape = shape[i];`), so an out-of-range index panics even for
an `Ellipsis` that would not use the value.  In the `Composite` arm,
`acc = 0` makes the Rust expression `dim_shape % acc` a remainder by
zero, which panics. -/
def matchLoop (shape : List Nat) (bindings : List (String × Nat))
    (ellipsisRange : Option (Nat × Nat)) :
    List PatternComponent → Nat → List (String × Nat) → LoopResult
  | [], _, target => LoopResult.done target
  | comp :: rest, i, target =>
    match shape[i]? with
    | none => LoopResult.panicked
    | some dimShape =>
      match comp with
      | PatternComponent.ellipsis =>
        match ellipsisRange with
        | none => LoopResult.panicked
        | some r => matchLoop shape bindings ellipsisRange rest r.2 target
      | PatternComponent.dim id =>
        match readthrough_lookup bindings target id with
        | (some bound, target1) =>
          if bound ≠ dimShape then LoopResult.fail (ShapeMatchError.todo "Mismatch")
          else matchLoop shape bindings ellipsisRange rest (i + 1) target1
        | (none, target1) =>
          matchLoop shape bindings ellipsisRange rest (i + 1) (mapInsert id dimShape target1)
      | PatternComponent.composite ids =>
        match compositeFold bindings ids 1 none target with
        | Except.error e => LoopResult.fail e
        | Except.ok (acc, some factor, target1) =>
          if acc = 0 then LoopResult.panicked
          else if dimShape % acc ≠ 0 then LoopResult.fail (ShapeMatchError.todo "Mismatch")
          else matchLoop shape bindings ellipsisRange rest (i + 1)
            (mapInsert factor (dimShape / acc) target1)
        | Except.ok (_, none, target1) =>
          matchLoop shape bindings ellipsisRange rest (i + 1) target1

/-- `ShapePattern::match_bindings`, over a pair-list binding source
(the source collects any binding source into a `HashMap` first). -/
def match_bindings (p : ShapePattern) (shape : List Nat)
    (src : List (String × Nat)) : MatchOutcome :=
  let dims := shape.length
  let epos := p.ellipsisPos
  let nonEComps :=
    match epos with
    | some _ => p.components.length - 1
    | none => p.components.length
  if nonEComps > dims then MatchOutcome.error (ShapeMatchError.todo "Not Enough Dims")
  else
    let ellipsisRange := epos.map (fun pos => (pos, pos + dims - nonEComps))
    let bindings := collect_binding_map src
    match matchLoop shape bindings ellipsisRange p.components 0 [] with
    | LoopResult.panicked => MatchOutcome.panicked
    | LoopResult.fail e => MatchOutcome.error e
    | LoopResult.done target => MatchOutcome.ok ⟨shape, target, ellipsisRange⟩

/-! ### Well-formedness predicates used by the round-trip statement -/

/-- A character list forms a valid identifier: nonempty, identifier
start, identifier continuation characters. -/
def validIdentChars : List Char → Bool
  | [] => false
  | c :: cs => isIdentStartCh c && cs.all isIdentCh

/-- A string is a valid identifier. -/
def validIdent (s : String) : Bool :=
  validIdentChars s.data

/-- Well-formed component: dimension names are valid identifiers and
composites have at least one factor. -/
def goodComponent : PatternComponent → Bool
  | PatternComponent.dim id => validIdent id
  | PatternComponent.ellipsis => true
  | PatternComponent.composite ids => !ids.isEmpty && ids.all validIdent

/-- No two adjacent `Dim` components (their displays would merge into a
single identifier). -/
def noAdjacentDims : List PatternComponent → Bool
  | PatternComponent.dim _ :: PatternComponent.dim _ :: _ => false
  | _ :: rest => noAdjacentDims rest
  | [] => true

/-- The first character of the list, if any, does not satisfy `p`. -/
def firstNotB (p : Char → Bool) : List Char → Bool
  | [] => true
  | c :: _ => !p c

/-- Character-level rendering of the composite id list (`id ++ " "` each). -/
def renderIdsChars : List String → List Char
  | [] => []
  | id :: rest => id.data ++ ' ' :: renderIdsChars rest

/-- Character-level rendering of one component's display. -/
def renderCompChars : PatternComponent → List Char
  | PatternComponent.dim id => id.data
  | PatternComponent.ellipsis => ['.', '.', '.']
  | PatternComponent.composite ids => '(' :: (renderIdsChars ids ++ [')'])

/-- Character-level rendering of a component list's display. -/
def renderChars : List PatternComponent → List Char
  | [] => []
  | c :: rest => renderCompChars c ++ renderChars rest

deriving instance DecidableEq for Except

/-! ### Claim theorems: concrete evaluations -/

/-- C1: counter to the claim, when every name of a `Composite` is already
resolved, `match_bindings` performs no check at all: the resolved product
2 * 3 = 6 differs from the shape value 5, yet the match succeeds instead
of failing with a composite-mismatch error.  (The source only checks the
composite value when exactly one factor is unbound.) -/
theorem c1_composite_all_bound_not_checked :
    parse_shape_pattern "(a b)" =
      Except.ok ⟨none, [PatternComponent.composite ["a", "b"]]⟩ ∧
    2 * 3 ≠ 5 ∧
    match_bindings ⟨none, [PatternComponent.composite ["a", "b"]]⟩ [5] [("a", 2), ("b", 3)] =
      MatchOutcome.ok ⟨[5], [("a", 2), ("b", 3)], none⟩ := by
  exact ⟨by decide, by decide, by decide⟩

/-- C2: counter to the claim, a pattern whose ellipsis is the final
component and consumes zero dimensions does not succeed: the source
reads `shape[i]` before inspecting the component, and at the ellipsis
`i` already equals the shape length, so the match panics
(out-of-bounds index) instead of returning a value. -/
theorem c2_trailing_empty_ellipsis_panics :
    parse_shape_pattern "b ..." =
      Except.ok ⟨some 1, [PatternComponent.dim "b", PatternComponent.ellipsis]⟩ ∧
    match_bindings ⟨some 1, [PatternComponent.dim "b", PatternComponent.ellipsis]⟩ [2] [] =
      MatchOutcome.panicked := by
  exact ⟨by decide, by decide⟩

/-- C3 counterexample: a pattern with one non-ellipsis component and no
ellipsis matches a shape of length 2 — the claim that only shapes of
length exactly `k` can match is false; extra trailing dimensions are
silently ignored. -/
theorem c3_longer_shape_succeeds :
    parse_shape_pattern "a" = Except.ok ⟨none, [PatternComponent.dim "a"]⟩ ∧
    match_bindings ⟨none, [PatternComponent.dim "a"]⟩ [1, 2] [] =
      MatchOutcome.ok ⟨[1, 2], [("a", 1)], none⟩ := by
  exact ⟨by decide, by decide⟩

/-- C4 counterexample: the `Display` rendering concatenates components
with no separator, so the valid two-dimension pattern `a b` renders as
`"ab"`, which parses back to the single-dimension pattern `ab`, not to
a structurally equal pattern. -/
theorem c4_adjacent_dims_do_not_roundtrip :
    check_ellipsis_pos [PatternComponent.dim "a", PatternComponent.dim "b"] =
      Except.ok none ∧
    ShapePattern.displayStr ⟨none, [PatternComponent.dim "a", PatternComponent.dim "b"]⟩ = "ab" ∧
    parse_shape_pattern "ab" = Except.ok ⟨none, [PatternComponent.dim "ab"]⟩ ∧
    (⟨none, [PatternComponent.dim "ab"]⟩ : ShapePattern) ≠
      ⟨none, [PatternComponent.dim "a", PatternComponent.dim "b"]⟩ := by
  exact ⟨by decide, by decide, by decide, by decide⟩

/-- C6: matching the parsed pattern `b ... (h p) (w p) c` against the
shape `[2, 9, 9, 80, 40, 3]` with external bindings `b = 2`, `p = 4`
succeeds with exactly the bindings `b = 2`, `p = 4`, `h = 20`, `w = 10`,
`c = 3` and ellipsis range `[1, 3)`. -/
theorem c6_example_match :
    parse_shape_pattern "b ... (h p) (w p) c" =
      Except.ok ⟨some 1, [PatternComponent.dim "b", PatternComponent.ellipsis,
        PatternComponent.composite ["h", "p"], PatternComponent.composite ["w", "p"],
        PatternComponent.dim "c"]⟩ ∧
    match_bindings
      ⟨some 1, [PatternComponent.dim "b", PatternComponent.ellipsis,
        PatternComponent.composite ["h", "p"], PatternComponent.composite ["w", "p"],
        PatternComponent.dim "c"]⟩
      [2, 9, 9, 80, 40, 3] [("b", 2), ("p", 4)] =
      MatchOutcome.ok ⟨[2, 9, 9, 80, 40, 3],
        [("b", 2), ("p", 4), ("h", 20), ("w", 10), ("c", 3)], some (1, 3)⟩ := by
  exact ⟨by decide, by decide⟩

/-- C8: the conflicting external binding `b = 99` against a shape whose
first dimension is 2 does fail, but with the placeholder error
`Todo("Mismatch")`, which carries neither the dimension name nor the
bound and observed values; the very same error value is produced by an
unrelated composite divisibility failure, so the error cannot be
reporting `99` versus `2`. -/
theorem c8_mismatch_error_carries_no_fields :
    match_bindings ⟨none, [PatternComponent.dim "b"]⟩ [2] [("b", 99)] =
      MatchOutcome.error (ShapeMatchError.todo "Mismatch") ∧
    match_bindings ⟨none, [PatternComponent.composite ["h", "p"]]⟩ [10] [("p", 3)] =
      MatchOutcome.error (ShapeMatchError.todo "Mismatch") := by
  exact ⟨by decide, by decide⟩

/-- C9: a composite with the two unresolved factors `h` and `w` fails,
but with the placeholder error `Todo("Multiple Unbound")`, which does
not name the composite. -/
theorem c9_multiple_unbound_error :
    match_bindings ⟨none, [PatternComponent.composite ["h", "w"]]⟩ [12] [] =
      MatchOutcome.error (ShapeMatchError.todo "Multiple Unbound") := by
  decide

/-! ### Association-map lemmas (for the binding-source claims) -/

theorem mapLookup_mapInsert_self {α : Type} (m : List (String × α)) (k : String) (v : α) :
    mapLookup (mapInsert k v m) k = some v := by
  induction m with
  | nil => simp [mapInsert, mapLookup]
  | cons kv rest ih =>
    by_cases h : kv.1 = k
    · simp [mapInsert, h, mapLookup]
    · have hb : (kv.1 == k) = false := beq_eq_false_iff_ne.mpr h
      simp only [mapInsert, hb, Bool.false_eq_true, if_false]
      simpa [mapLookup, List.find?_cons, hb] using ih

theorem mapLookup_mapInsert_ne {α : Type} (m : List (String × α)) (k k' : String) (v : α)
    (h : k' ≠ k) : mapLookup (mapInsert k v m) k' = mapLookup m k' := by
  induction m with
  | nil => simp [mapInsert, mapLookup, beq_eq_false_iff_ne.mpr (Ne.symm h)]
  | cons kv rest ih =>
    by_cases hk : kv.1 = k
    · subst hk
      simp [mapInsert, mapLookup, List.find?_cons, beq_eq_false_iff_ne.mpr (fun e => h e.symm),
        beq_eq_false_iff_ne.mpr (fun e : kv.1 = k' => h e.symm)]
    · have hb : (kv.1 == k) = false := beq_eq_false_iff_ne.mpr hk
      simp only [mapInsert, hb, Bool.false_eq_true, if_false]
      by_cases hk' : kv.1 = k'
      · simp [mapLookup, List.find?_cons, hk']
      · have hb' : (kv.1 == k') = false := beq_eq_false_iff_ne.mpr hk'
        simpa [mapLookup, List.find?_cons, hb'] using ih

theorem find?_key_append_of_not_mem {α : Type} (l r : List (String × α)) (k : String)
    (h : k ∉ l.map Prod.fst) :
    (l ++ r).find? (fun kv => kv.1 == k) = r.find? (fun kv => kv.1 == k) := by
  induction l with
  | nil => rfl
  | cons kv rest ih =>
    simp only [List.map_cons, List.mem_cons] at h
    push_neg at h
    have hb : (kv.1 == k) = false := beq_eq_false_iff_ne.mpr (fun e => h.1 e.symm)
    simpa [List.find?_cons, hb] using ih h.2

theorem mapLookup_foldl_insert (l : List (String × Nat)) :
    ∀ (m : List (String × Nat)) (k : String),
    mapLookup (l.foldl (fun m kv => mapInsert kv.1 kv.2 m) m) k =
      match l.reverse.find? (fun kv => kv.1 == k) with
      | some kv => some kv.2
      | none => mapLookup m k := by
  induction l with
  | nil => intro m k; rfl
  | cons kv rest ih =>
    intro m k
    simp only [List.foldl_cons, List.reverse_cons]
    rw [ih]
    by_cases hfound : (rest.reverse.find? (fun kv => kv.1 == k)).isSome
    · obtain ⟨kv', hkv'⟩ := Option.isSome_iff_exists.mp hfound
      have happ : (rest.reverse ++ [kv]).find? (fun kv => kv.1 == k) = some kv' := by
        rw [List.find?_append, hkv']; rfl
      simp [hkv', happ]
    · have hnone : rest.reverse.find? (fun kv => kv.1 == k) = none :=
        Option.not_isSome_iff_eq_none.mp hfound
      have happ : (rest.reverse ++ [kv]).find? (fun kv => kv.1 == k) =
          [kv].find? (fun kv => kv.1 == k) := by
        rw [List.find?_append, hnone]; rfl
      rw [hnone, happ]
      by_cases hk : kv.1 = k
      · simp [List.find?_cons, hk, mapLookup_mapInsert_self]
      · have hb : (kv.1 == k) = false := beq_eq_false_iff_ne.mpr hk
        simp [List.find?_cons, hb, mapLookup_mapInsert_ne _ _ _ _ (fun e => hk e.symm)]

/-- C10: in a pair-list binding source holding the same name twice, the
default `lookup_shape_binding` linear scan returns the first
occurrence's value, while the `HashMap` produced by
`collect_binding_map` — which `match_bindings` builds from its binding
source before walking the pattern — maps the name to the last
occurrence's value. -/
theorem c10_duplicate_name_lookups (pre mid suf : List (String × Nat)) (n : String)
    (v₁ v₂ : Nat) (hpre : n ∉ pre.map Prod.fst) (hsuf : n ∉ suf.map Prod.fst) :
    lookup_shape_binding (pre ++ (n, v₁) :: mid ++ (n, v₂) :: suf) n = some v₁ ∧
    mapLookup (collect_binding_map (pre ++ (n, v₁) :: mid ++ (n, v₂) :: suf)) n = some v₂ := by
  constructor
  · unfold lookup_shape_binding
    rw [show pre ++ (n, v₁) :: mid ++ (n, v₂) :: suf =
      pre ++ ((n, v₁) :: (mid ++ (n, v₂) :: suf)) from by simp,
      find?_key_append_of_not_mem _ _ _ hpre]
    simp [List.find?_cons]
  · unfold collect_binding_map
    rw [mapLookup_foldl_insert]
    have hrev : (pre ++ (n, v₁) :: mid ++ (n, v₂) :: suf).reverse =
        suf.reverse ++ ((n, v₂) :: (mid.reverse ++ (n, v₁) :: pre.reverse)) := by
      simp
    rw [hrev, find?_key_append_of_not_mem _ _ _ (by simpa using hsuf)]
    simp [List.find?_cons]

/-- Closed instance of `c10_duplicate_name_lookups` at the source list
`[("x", 0), ("a", 1), ("a", 2)]`: the scan sees `a = 1`, the collected
map sees `a = 2`. -/
theorem c10_duplicate_name_lookups_witness :
    lookup_shape_binding [("x", 0), ("a", 1), ("a", 2)] "a" = some 1 ∧
    mapLookup (collect_binding_map [("x", 0), ("a", 1), ("a", 2)]) "a" = some 2 :=
  c10_duplicate_name_lookups [("x", 0)] [] [] "a" 1 2 (by decide) (by decide)

/-! ### Cached-parser claim -/

/-- C5: for any valid cache state (every stored entry is the successful
parse of its key — in particular the empty cache, which is what every
call of the source actually sees, because `PARSE_CACHE` is a `const`
`Lazy` and is rebuilt per access), `cached_parse` returns exactly the
result of `parse`, and the updated cache state is again valid. -/
theorem c5_cached_parse_agrees_with_parse (cache : List (String × ShapePattern))
    (s : String) (h : ValidCache cache) :
    (cached_parse_shape_pattern cache s).1 = parse_shape_pattern s ∧
    ValidCache (cached_parse_shape_pattern cache s).2 := by
  unfold cached_parse_shape_pattern cache_get_or_insert_with
  cases hc : mapLookup cache s with
  | some p => exact ⟨(h s p hc).symm, h⟩
  | none =>
    cases hp : parse_shape_pattern s with
    | ok p =>
      refine ⟨rfl, ?_⟩
      intro k q hk
      by_cases hks : k = s
      · subst hks
        rw [mapLookup_mapInsert_self] at hk
        cases hk
        exact hp
      · rw [mapLookup_mapInsert_ne _ _ _ _ hks] at hk
        exact h k q hk
    | error e => exact ⟨rfl, h⟩

/-- Closed instance of `c5_cached_parse_agrees_with_parse` at the empty
cache (the state the source's `const` cache always has) and a concrete
input. -/
theorem c5_cached_parse_agrees_with_parse_witness :
    (cached_parse_shape_pattern [] "a b").1 = parse_shape_pattern "a b" :=
  (c5_cached_parse_agrees_with_parse [] "a b"
    (fun _ _ hk => Option.noConfusion hk)).1

/-! ### Matcher error payloads: the walk only ever fails with
`"Mismatch"` or `"Multiple Unbound"` -/

theorem compositeFold_error_payload (bindings : List (String × Nat)) :
    ∀ (ids : List String) (acc : Nat) (unbound : Option String)
      (target : List (String × Nat)) (e : ShapeMatchError),
    compositeFold bindings ids acc unbound target = Except.error e →
    e = ShapeMatchError.todo "Multiple Unbound" := by
  intro ids
  induction ids with
  | nil => intro acc unbound target e h; exact Except.noConfusion h
  | cons f fs ih =>
    intro acc unbound target e h
    simp only [compositeFold] at h
    rcases hr : readthrough_lookup bindings target f with ⟨ov, tgt1⟩
    rw [hr] at h
    cases ov with
    | some v => exact ih _ _ _ _ h
    | none =>
      cases unbound with
      | some u =>
        injection h with h1
        exact h1.symm
      | none => exact ih _ _ _ _ h

theorem matchLoop_fail_payload (shape : List Nat) (bindings : List (String × Nat))
    (er : Option (Nat × Nat)) :
    ∀ (comps : List PatternComponent) (i : Nat) (target : List (String × Nat))
      (e : ShapeMatchError),
    matchLoop shape bindings er comps i target = LoopResult.fail e →
    e = ShapeMatchError.todo "Mismatch" ∨ e = ShapeMatchError.todo "Multiple Unbound" := by
  intro comps
  induction comps with
  | nil => intro i target e h; exact LoopResult.noConfusion h
  | cons comp rest ih =>
    intro i target e h
    simp only [matchLoop] at h
    split at h
    · exact LoopResult.noConfusion h
    · split at h
      · split at h
        · exact LoopResult.noConfusion h
        · exact ih _ _ _ h
      · split at h
        · split at h
          · injection h with h1
            exact Or.inl h1.symm
          · exact ih _ _ _ h
        · exact ih _ _ _ h
      · split at h
        · injection h with h1
          rename_i hf
          exact Or.inr (h1 ▸ compositeFold_error_payload _ _ _ _ _ _ hf)
        · split at h
          · exact LoopResult.noConfusion h
          · split at h
            · injection h with h1
              exact Or.inl h1.symm
            · exact ih _ _ _ h
        · exact ih _ _ _ h

/-- C3 (amended): a pattern with no ellipsis component fails with the
too-few-dimensions error exactly when the shape is shorter than the
component count; a longer shape is never rejected for its length (the
walk only consumes the first `k` positions, as `c3_longer_shape_succeeds`
shows on a concrete longer shape that matches successfully). -/
theorem c3_too_few_dims_iff (p : ShapePattern) (shape : List Nat)
    (src : List (String × Nat)) (h : p.ellipsisPos = none) :
    match_bindings p shape src =
      MatchOutcome.error (ShapeMatchError.todo "Not Enough Dims") ↔
    shape.length < p.components.length := by
  constructor
  · intro hres
    by_contra hlen
    push_neg at hlen
    simp only [match_bindings, h] at hres
    rw [if_neg (by omega)] at hres
    split at hres
    · exact MatchOutcome.noConfusion hres
    · injection hres with h1
      rename_i e hml
      rcases matchLoop_fail_payload _ _ _ _ _ _ _ hml with h2 | h2 <;>
        rw [h2] at h1 <;> exact absurd h1 (by decide)
    · exact MatchOutcome.noConfusion hres
  · intro hlt
    simp only [match_bindings, h]
    rw [if_pos (by omega)]

/-- Closed instance of `c3_too_few_dims_iff`: the one-dimension pattern
`a` against the empty shape fails with the too-few-dimensions error. -/
theorem c3_too_few_dims_iff_witness :
    match_bindings ⟨none, [PatternComponent.dim "a"]⟩ [] [] =
      MatchOutcome.error (ShapeMatchError.todo "Not Enough Dims") :=
  (c3_too_few_dims_iff ⟨none, [PatternComponent.dim "a"]⟩ [] [] (by decide)).mpr (by decide)

/-! ### Ellipsis-count claim -/

theorem checkEllipsisAux_some_of_ellipsis (full : List PatternComponent) :
    ∀ (rest : List PatternComponent) (i j : Nat), 1 ≤ countEllipsis rest →
    checkEllipsisAux full rest i (some j) =
      Except.error (ShapePatternError.invalidPattern (componentsToString full)
        "Only one ellipsis is allowed") := by
  intro rest
  induction rest with
  | nil => intro i j hc; exact absurd hc (by simp [countEllipsis])
  | cons c rest ih =>
    intro i j hc
    cases c with
    | ellipsis => rfl
    | dim id =>
      have : countEllipsis rest = countEllipsis (PatternComponent.dim id :: rest) := by
        simp [countEllipsis, List.countP_cons, isEllipsisComp]
      exact ih (i + 1) j (by omega)
    | composite ids =>
      have : countEllipsis rest = countEllipsis (PatternComponent.composite ids :: rest) := by
        simp [countEllipsis, List.countP_cons, isEllipsisComp]
      exact ih (i + 1) j (by omega)

theorem checkEllipsisAux_none_of_two (full : List PatternComponent) :
    ∀ (rest : List PatternComponent) (i : Nat), 2 ≤ countEllipsis rest →
    checkEllipsisAux full rest i none =
      Except.error (ShapePatternError.invalidPattern (componentsToString full)
        "Only one ellipsis is allowed") := by
  intro rest
  induction rest with
  | nil => intro i hc; exact absurd hc (by simp [countEllipsis])
  | cons c rest ih =>
    intro i hc
    cases c with
    | ellipsis =>
      have h1 : 1 ≤ countEllipsis rest := by
        have : countEllipsis (PatternComponent.ellipsis :: rest) = countEllipsis rest + 1 := by
          simp [countEllipsis, List.countP_cons, isEllipsisComp]
        omega
      exact checkEllipsisAux_some_of_ellipsis full rest (i + 1) i h1
    | dim id =>
      have : countEllipsis rest = countEllipsis (PatternComponent.dim id :: rest) := by
        simp [countEllipsis, List.countP_cons, isEllipsisComp]
      exact ih (i + 1) (by omega)
    | composite ids =>
      have : countEllipsis rest = countEllipsis (PatternComponent.composite ids :: rest) := by
        simp [countEllipsis, List.countP_cons, isEllipsisComp]
      exact ih (i + 1) (by omega)

/-- C7: whenever the syntactic phase fully parses the (trimmed) input
into a component sequence — so the surrounding components are valid —
and that sequence holds two or more ellipsis tokens,
`parse_shape_pattern` fails with the `InvalidPattern` error (never with
a plain `ParseError` and never successfully). -/
theorem c7_two_ellipses_invalid (s : String) (cs : List PatternComponent)
    (hparse : componentsP ((rustTrim s).data.length + 1) (rustTrim s).data = some (cs, []))
    (hcount : 2 ≤ countEllipsis cs) :
    parse_shape_pattern s =
      Except.error (ShapePatternError.invalidPattern (componentsToString cs)
        "Only one ellipsis is allowed") := by
  unfold parse_shape_pattern
  rw [hparse]
  simp only [ShapePattern.new, check_ellipsis_pos,
    checkEllipsisAux_none_of_two cs cs 0 hcount]

/-- Closed instance of `c7_two_ellipses_invalid` at the input
`"... a ..."`: two ellipses around a valid dimension yield the
`InvalidPattern` error. -/
theorem c7_two_ellipses_invalid_witness :
    parse_shape_pattern "... a ..." =
      Except.error (ShapePatternError.invalidPattern
        (componentsToString [PatternComponent.ellipsis, PatternComponent.dim "a",
          PatternComponent.ellipsis]) "Only one ellipsis is allowed") :=
  c7_two_ellipses_invalid "... a ..."
    [PatternComponent.ellipsis, PatternComponent.dim "a", PatternComponent.ellipsis]
    (by decide) (by decide)

/-! ### Round-trip helper lemmas: character classes -/

theorem firstNotB_cons (p : Char → Bool) (c : Char) (l : List Char) :
    firstNotB p (c :: l) = !p c := rfl

theorem identCh_of_identStart {c : Char} (h : isIdentStartCh c = true) :
    isIdentCh c = true := by
  simp only [isIdentStartCh, Bool.or_eq_true] at h
  simp only [isIdentCh, Bool.or_eq_true]
  rcases h with h | h
  · exact Or.inl (Or.inl h)
  · exact Or.inr h

theorem not_space_of_identStart {c : Char} (h : isIdentStartCh c = true) :
    isSpaceCh c = false := by
  cases hs : isSpaceCh c with
  | false => rfl
  | true =>
    exfalso
    simp only [isSpaceCh, Bool.or_eq_true, beq_iff_eq] at hs
    rcases hs with ((rfl | rfl) | rfl) | rfl <;> revert h <;> decide

theorem not_dot_of_identStart {c : Char} (h : isIdentStartCh c = true) :
    (c == '.') = false := by
  cases hd : c == '.' with
  | false => rfl
  | true =>
    exfalso
    have hc : c = '.' := beq_iff_eq.mp hd
    subst hc
    revert h
    decide

theorem not_rws_of_identCh {c : Char} (h : isIdentCh c = true) :
    isRustWhitespace c = false := by
  cases hw : isRustWhitespace c with
  | false => rfl
  | true =>
    exfalso
    simp only [isRustWhitespace, Bool.or_eq_true, Bool.and_eq_true, decide_eq_true_eq,
      beq_iff_eq] at hw
    simp only [isIdentCh, isAlphaCh, isDigitCh, Bool.or_eq_true, Bool.and_eq_true,
      decide_eq_true_eq, beq_iff_eq] at h
    rcases h with ((⟨h1, h2⟩ | ⟨h1, h2⟩) | ⟨h1, h2⟩) | rfl
    · omega
    · omega
    · omega
    · revert hw
      decide

theorem not_rws_of_identStart {c : Char} (h : isIdentStartCh c = true) :
    isRustWhitespace c = false :=
  not_rws_of_identCh (identCh_of_identStart h)

/-! ### Round-trip helper lemmas: takeWhile / dropWhile on appends -/

theorem takeWhile_eq_nil_of_firstNot {p : Char → Bool} (r : List Char)
    (h : firstNotB p r = true) : r.takeWhile p = [] := by
  cases r with
  | nil => rfl
  | cons c cs =>
    simp only [firstNotB, Bool.not_eq_true'] at h
    simp [List.takeWhile_cons, h]

theorem dropWhile_eq_self_of_firstNot {p : Char → Bool} (r : List Char)
    (h : firstNotB p r = true) : r.dropWhile p = r := by
  cases r with
  | nil => rfl
  | cons c cs =>
    simp only [firstNotB, Bool.not_eq_true'] at h
    simp [List.dropWhile_cons, h]

theorem takeWhile_append_all {p : Char → Bool} :
    ∀ (l r : List Char), l.all p = true → firstNotB p r = true →
    (l ++ r).takeWhile p = l := by
  intro l
  induction l with
  | nil => intro r _ hr; exact takeWhile_eq_nil_of_firstNot r hr
  | cons c cs ih =>
    intro r hl hr
    simp only [List.all_cons, Bool.and_eq_true] at hl
    simp [List.takeWhile_cons, hl.1, ih r hl.2 hr]

theorem dropWhile_append_all {p : Char → Bool} :
    ∀ (l r : List Char), l.all p = true → firstNotB p r = true →
    (l ++ r).dropWhile p = r := by
  intro l
  induction l with
  | nil => intro r _ hr; exact dropWhile_eq_self_of_firstNot r hr
  | cons c cs ih =>
    intro r hl hr
    simp only [List.all_cons, Bool.and_eq_true] at hl
    simp [List.dropWhile_cons, hl.1, ih r hl.2 hr]

/-! ### Round-trip helper lemmas: display renders to `renderChars` -/

theorem string_mk_data (s : String) : (⟨s.data⟩ : String) = s := rfl

theorem compositeIdsDisplay_data : ∀ (ids : List String),
    (compositeIdsDisplay ids).data = renderIdsChars ids := by
  intro ids
  induction ids with
  | nil => rfl
  | cons id rest ih =>
    simp [compositeIdsDisplay, renderIdsChars, String.data_append, ih]

theorem componentDisplay_data : ∀ (c : PatternComponent),
    (componentDisplay c).data = renderCompChars c := by
  intro c
  cases c with
  | dim id => rfl
  | ellipsis => rfl
  | composite ids =>
    simp [componentDisplay, renderCompChars, String.data_append, compositeIdsDisplay_data]

theorem componentsToString_data : ∀ (cs : List PatternComponent),
    (componentsToString cs).data = renderChars cs := by
  intro cs
  induction cs with
  | nil => rfl
  | cons c rest ih =>
    simp [componentsToString, renderChars, String.data_append, componentDisplay_data, ih]

/-! ### Round-trip helper lemmas: individual parsers on rendered input -/

theorem identP_append (l r : List Char) (hv : validIdentChars l = true)
    (hr : firstNotB isIdentCh r = true) :
    identP (l ++ r) = some (⟨l⟩, r) := by
  cases l with
  | nil => exact absurd hv (by simp [validIdentChars])
  | cons c cs =>
    simp only [validIdentChars, Bool.and_eq_true] at hv
    simp only [List.cons_append, identP, hv.1, if_true]
    rw [takeWhile_append_all cs r hv.2 hr, dropWhile_append_all cs r hv.2 hr]

theorem identP_none_of_not_start (input : List Char)
    (h : firstNotB isIdentStartCh input = true) : identP input = none := by
  cases input with
  | nil => rfl
  | cons c cs =>
    simp only [firstNotB, Bool.not_eq_true'] at h
    simp [identP, h]

theorem ellipsisP_dots (r : List Char) : ellipsisP ('.' :: '.' :: '.' :: r) = some r := rfl

theorem ellipsisP_none_of_not_dot (input : List Char)
    (h : firstNotB (fun c => c == '.') input = true) : ellipsisP input = none := by
  cases input with
  | nil => rfl
  | cons c1 rest =>
    simp only [firstNotB, Bool.not_eq_true'] at h
    cases rest with
    | nil => rfl
    | cons c2 rest2 =>
      cases rest2 with
      | nil => rfl
      | cons c3 rest3 => simp [ellipsisP, h]

theorem identListP_none_of_identP_none (input : List Char) (h : identP input = none) :
    ∀ fuel, identListP fuel input = none := by
  intro fuel
  cases fuel with
  | zero => rfl
  | succ f => simp [identListP, h]

theorem validIdent_data_ne_nil (id : String) (hv : validIdent id = true) :
    id.data ≠ [] := by
  intro hd
  unfold validIdent at hv
  rw [hd] at hv
  exact absurd hv (by decide)

theorem validIdent_head_start (id : String) (c : Char) (cs : List Char)
    (hv : validIdent id = true) (hd : id.data = c :: cs) :
    isIdentStartCh c = true ∧ cs.all isIdentCh = true := by
  unfold validIdent at hv
  rw [hd] at hv
  simpa [validIdentChars, Bool.and_eq_true] using hv

theorem renderIdsChars_length_ge : ∀ (ids : List String), ids.all validIdent = true →
    ids.length ≤ (renderIdsChars ids).length := by
  intro ids
  induction ids with
  | nil => intro _; simp [renderIdsChars]
  | cons id rest ih =>
    intro hv
    simp only [List.all_cons, Bool.and_eq_true] at hv
    have hid : 1 ≤ id.data.length := by
      cases hd : id.data with
      | nil => exact absurd hd (validIdent_data_ne_nil id hv.1)
      | cons a l => simp [hd]
    have := ih hv.2
    simp only [renderIdsChars, List.length_append, List.length_cons]
    omega

theorem firstNotB_space_of_renderIds (id : String) (tl : List String) (r : List Char)
    (hv : validIdent id = true) :
    firstNotB isSpaceCh (renderIdsChars (id :: tl) ++ r) = true := by
  cases hd : id.data with
  | nil => exact absurd hd (validIdent_data_ne_nil id hv)
  | cons c cs =>
    have hstart := (validIdent_head_start id c cs hv hd).1
    simp [renderIdsChars, hd, firstNotB_cons, not_space_of_identStart hstart]

theorem identListP_render : ∀ (ids : List String) (r : List Char) (fuel : Nat),
    ids ≠ [] → ids.all validIdent = true → ids.length ≤ fuel →
    identListP fuel (renderIdsChars ids ++ ')' :: r) = some (ids, ' ' :: ')' :: r) := by
  intro ids
  induction ids with
  | nil => intro r fuel h; exact absurd rfl h
  | cons id rest ih =>
    intro r fuel _ hv hf
    simp only [List.all_cons, Bool.and_eq_true] at hv
    have hf' : rest.length + 1 ≤ fuel := by simpa using hf
    obtain ⟨f, rfl⟩ : ∃ f, fuel = f + 1 := ⟨fuel - 1, by omega⟩
    have hsp : isSpaceCh ' ' = true := by decide
    cases rest with
    | nil =>
      have e1 : renderIdsChars [id] ++ ')' :: r = id.data ++ (' ' :: ')' :: r) := by
        simp [renderIdsChars]
      rw [e1]
      have hident := identP_append id.data (' ' :: ')' :: r) hv.1
        (by rw [firstNotB_cons]; decide)
      have hdrop : (')' :: r).dropWhile isSpaceCh = ')' :: r :=
        dropWhile_eq_self_of_firstNot _ (by rw [firstNotB_cons]; decide)
      have hinner : identListP f (')' :: r) = none :=
        identListP_none_of_identP_none (')' :: r)
          (identP_none_of_not_start (')' :: r) (by rw [firstNotB_cons]; decide)) f
      simp [identListP, hident, string_mk_data, ws1, hsp, hdrop, hinner]
    | cons id2 rest2 =>
      have e1 : renderIdsChars (id :: id2 :: rest2) ++ ')' :: r =
          id.data ++ (' ' :: (renderIdsChars (id2 :: rest2) ++ ')' :: r)) := by
        simp [renderIdsChars]
      rw [e1]
      have hident := identP_append id.data (' ' :: (renderIdsChars (id2 :: rest2) ++ ')' :: r))
        hv.1 (by rw [firstNotB_cons]; decide)
      have hdrop : (renderIdsChars (id2 :: rest2) ++ ')' :: r).dropWhile isSpaceCh =
          renderIdsChars (id2 :: rest2) ++ ')' :: r :=
        dropWhile_eq_self_of_firstNot _
          (firstNotB_space_of_renderIds id2 rest2 (')' :: r) (by simp_all))
      have hih := ih r f (by simp) hv.2 (by simpa using hf')
      simp [identListP, hident, string_mk_data, ws1, hsp, hdrop, hih]

theorem compositeP_render (ids : List String) (r : List Char)
    (hne : ids ≠ []) (hv : ids.all validIdent = true) :
    compositeP ('(' :: (renderIdsChars ids ++ ')' :: r)) =
      some (PatternComponent.composite ids, r) := by
  have hdrop : (renderIdsChars ids ++ ')' :: r).dropWhile isSpaceCh =
      renderIdsChars ids ++ ')' :: r := by
    cases ids with
    | nil => exact absurd rfl hne
    | cons id tl =>
      exact dropWhile_eq_self_of_firstNot _
        (firstNotB_space_of_renderIds id tl (')' :: r) (by simp_all))
  have hlen : ids.length ≤ (renderIdsChars ids ++ ')' :: r).length + 1 := by
    have := renderIdsChars_length_ge ids hv
    simp only [List.length_append, List.length_cons]
    omega
  have hlist := identListP_render ids r ((renderIdsChars ids ++ ')' :: r).length + 1)
    hne hv hlen
  simp only [List.length_append, List.length_cons] at hlist
  have hsp : isSpaceCh ' ' = true := by decide
  have hdrop2 : (')' :: r).dropWhile isSpaceCh = ')' :: r :=
    dropWhile_eq_self_of_firstNot _ (by rw [firstNotB_cons]; decide)
  simp [compositeP, hdrop, hlist, List.dropWhile_cons, hsp, hdrop2]

theorem componentP_dim (id : String) (r : List Char) (hv : validIdent id = true)
    (hr : firstNotB isIdentCh r = true) :
    componentP (id.data ++ r) = some (PatternComponent.dim id, r) := by
  cases hd : id.data with
  | nil => exact absurd hd (validIdent_data_ne_nil id hv)
  | cons c cs =>
    have hstart := (validIdent_head_start id c cs hv hd).1
    have hell : ellipsisP (id.data ++ r) = none := by
      rw [hd]
      exact ellipsisP_none_of_not_dot _
        (by rw [List.cons_append, firstNotB_cons]; simp [not_dot_of_identStart hstart])
    have hident : identP (id.data ++ r) = some (id, r) := by
      have h := identP_append id.data r hv hr
      rwa [string_mk_data] at h
    rw [hd] at hell hident
    simp only [List.cons_append] at hell hident
    simp [componentP, hell, hident]

theorem componentP_ellipsis (r : List Char) :
    componentP ('.' :: '.' :: '.' :: r) = some (PatternComponent.ellipsis, r) := rfl

theorem componentP_composite (ids : List String) (r : List Char)
    (hne : ids ≠ []) (hv : ids.all validIdent = true) :
    componentP ('(' :: (renderIdsChars ids ++ ')' :: r)) =
      some (PatternComponent.composite ids, r) := by
  have hell : ellipsisP ('(' :: (renderIdsChars ids ++ ')' :: r)) = none :=
    ellipsisP_none_of_not_dot _ (by rw [firstNotB_cons]; decide)
  have hid : identP ('(' :: (renderIdsChars ids ++ ')' :: r)) = none :=
    identP_none_of_not_start _ (by rw [firstNotB_cons]; decide)
  simp [componentP, hell, hid, compositeP_render ids r hne hv]

theorem componentsP_nil : ∀ (fuel : Nat), componentsP fuel [] = none := by
  intro fuel
  cases fuel with
  | zero => rfl
  | succ f => rfl

theorem renderCompChars_ne_nil (c : PatternComponent) (h : goodComponent c = true) :
    renderCompChars c ≠ [] := by
  cases c with
  | dim id =>
    have := validIdent_data_ne_nil id (by simpa [goodComponent] using h)
    simpa [renderCompChars]
  | ellipsis => simp [renderCompChars]
  | composite ids => simp [renderCompChars]

theorem renderChars_length_ge : ∀ (cs : List PatternComponent),
    cs.all goodComponent = true → cs.length ≤ (renderChars cs).length := by
  intro cs
  induction cs with
  | nil => intro _; simp [renderChars]
  | cons c tl ih =>
    intro hall
    simp only [List.all_cons, Bool.and_eq_true] at hall
    have h1 : 1 ≤ (renderCompChars c).length :=
      List.length_pos.mpr (renderCompChars_ne_nil c hall.1)
    have := ih hall.2
    simp only [renderChars, List.length_append, List.length_cons]
    omega

theorem firstNotB_append_left (p : Char → Bool) (A B : List Char) (h : A ≠ []) :
    firstNotB p (A ++ B) = firstNotB p A := by
  cases A with
  | nil => exact absurd rfl h
  | cons a l => rfl

theorem noAdjacentDims_tail : ∀ (c : PatternComponent) (tl : List PatternComponent),
    noAdjacentDims (c :: tl) = true → noAdjacentDims tl = true := by
  intro c tl h
  cases c with
  | dim id =>
    cases tl with
    | nil => rfl
    | cons c2 tl2 =>
      cases c2 with
      | dim id2 => exact absurd h (by simp [noAdjacentDims])
      | ellipsis => simpa [noAdjacentDims] using h
      | composite ids => simpa [noAdjacentDims] using h
  | ellipsis => simpa [noAdjacentDims] using h
  | composite ids => simpa [noAdjacentDims] using h

theorem firstNotB_space_of_renderComp (c : PatternComponent) (h : goodComponent c = true) :
    firstNotB isSpaceCh (renderCompChars c) = true := by
  cases c with
  | dim id =>
    have hv : validIdent id = true := by simpa [goodComponent] using h
    cases hd : id.data with
    | nil => exact absurd hd (validIdent_data_ne_nil id hv)
    | cons a l =>
      have hstart := (validIdent_head_start id a l hv hd).1
      simp [renderCompChars, hd, firstNotB_cons, not_space_of_identStart hstart]
  | ellipsis => decide
  | composite ids => rw [renderCompChars, firstNotB_cons]; decide

theorem headNotB_space_of_renderChars : ∀ (cs : List PatternComponent),
    cs.all goodComponent = true → firstNotB isSpaceCh (renderChars cs) = true := by
  intro cs hall
  cases cs with
  | nil => rfl
  | cons c tl =>
    simp only [List.all_cons, Bool.and_eq_true] at hall
    rw [renderChars, firstNotB_append_left _ _ _ (renderCompChars_ne_nil c hall.1)]
    exact firstNotB_space_of_renderComp c hall.1

theorem componentsP_render : ∀ (cs : List PatternComponent) (fuel : Nat),
    cs ≠ [] → cs.all goodComponent = true → noAdjacentDims cs = true →
    cs.length ≤ fuel →
    componentsP fuel (renderChars cs) = some (cs, []) := by
  intro cs
  induction cs with
  | nil => intro fuel h; exact absurd rfl h
  | cons c tl ih =>
    intro fuel _ hall hadj hf
    simp only [List.all_cons, Bool.and_eq_true] at hall
    have hf' : tl.length + 1 ≤ fuel := by simpa using hf
    obtain ⟨f, rfl⟩ : ∃ f, fuel = f + 1 := ⟨fuel - 1, by omega⟩
    have hcomp : componentP (renderCompChars c ++ renderChars tl) =
        some (c, renderChars tl) := by
      cases c with
      | dim id =>
        have hr : firstNotB isIdentCh (renderChars tl) = true := by
          cases tl with
          | nil => rfl
          | cons c2 tl2 =>
            cases c2 with
            | dim id2 => exact absurd hadj (by simp [noAdjacentDims])
            | ellipsis =>
              rw [renderChars, firstNotB_append_left _ _ _ (by simp [renderCompChars])]
              decide
            | composite ids2 =>
              rw [renderChars, firstNotB_append_left _ _ _ (by simp [renderCompChars]),
                renderCompChars, firstNotB_cons]
              decide
        exact componentP_dim id _ (by simpa [goodComponent] using hall.1) hr
      | ellipsis => exact componentP_ellipsis _
      | composite ids =>
        have hg : (!ids.isEmpty && ids.all validIdent) = true := by
          simpa [goodComponent] using hall.1
        simp only [Bool.and_eq_true] at hg
        have e1 : renderCompChars (PatternComponent.composite ids) ++ renderChars tl =
            '(' :: (renderIdsChars ids ++ ')' :: renderChars tl) := by
          simp [renderCompChars]
        rw [e1]
        exact componentP_composite ids _ (by simpa using hg.1) hg.2
    have hdrop : (renderChars tl).dropWhile isSpaceCh = renderChars tl :=
      dropWhile_eq_self_of_firstNot _ (headNotB_space_of_renderChars tl hall.2)
    by_cases htl : tl = []
    · subst htl
      simp only [renderChars, List.append_nil] at hcomp ⊢
      simp [componentsP, hcomp, componentsP_nil f]
    · have hih : componentsP f (renderChars tl) = some (tl, []) :=
        ih f htl hall.2 (noAdjacentDims_tail c tl hadj) (by omega)
      have e1 : renderChars (c :: tl) = renderCompChars c ++ renderChars tl := rfl
      rw [e1]
      simp [componentsP, hcomp, hdrop, hih]

theorem firstNotB_of_all {p : Char → Bool} (l : List Char)
    (h : l.all (fun c => !p c) = true) : firstNotB p l = true := by
  cases l with
  | nil => rfl
  | cons c cs =>
    simp only [List.all_cons, Bool.and_eq_true] at h
    rw [firstNotB_cons]
    exact h.1

theorem all_not_rws_of_validIdent (id : String) (hv : validIdent id = true) :
    id.data.all (fun ch => !isRustWhitespace ch) = true := by
  cases hd : id.data with
  | nil => simp
  | cons c cs =>
    have h := validIdent_head_start id c cs hv hd
    simp only [List.all_cons, Bool.and_eq_true]
    refine ⟨by simp [not_rws_of_identStart h.1], ?_⟩
    rw [List.all_eq_true] at h ⊢
    intro x hx
    simp [not_rws_of_identCh (h.2 x hx)]

theorem firstNotB_rws_of_renderComp (c : PatternComponent) (h : goodComponent c = true) :
    firstNotB isRustWhitespace (renderCompChars c) = true := by
  cases c with
  | dim id =>
    have hv : validIdent id = true := by simpa [goodComponent] using h
    exact firstNotB_of_all _ (all_not_rws_of_validIdent id hv)
  | ellipsis => decide
  | composite ids => rw [renderCompChars, firstNotB_cons]; decide

theorem headNotB_rws_of_renderChars : ∀ (cs : List PatternComponent),
    cs.all goodComponent = true → firstNotB isRustWhitespace (renderChars cs) = true := by
  intro cs hall
  cases cs with
  | nil => rfl
  | cons c tl =>
    simp only [List.all_cons, Bool.and_eq_true] at hall
    rw [renderChars, firstNotB_append_left _ _ _ (renderCompChars_ne_nil c hall.1)]
    exact firstNotB_rws_of_renderComp c hall.1

theorem lastNotB_rws_of_renderComp (c : PatternComponent) (h : goodComponent c = true) :
    firstNotB isRustWhitespace (renderCompChars c).reverse = true := by
  cases c with
  | dim id =>
    have hv : validIdent id = true := by simpa [goodComponent] using h
    refine firstNotB_of_all _ ?_
    rw [List.all_reverse]
    exact all_not_rws_of_validIdent id hv
  | ellipsis => decide
  | composite ids =>
    have e1 : (renderCompChars (PatternComponent.composite ids)).reverse =
        ')' :: ((renderIdsChars ids).reverse ++ ['(']) := by
      simp [renderCompChars]
    rw [e1, firstNotB_cons]
    decide

theorem renderChars_ne_nil : ∀ (cs : List PatternComponent), cs ≠ [] →
    cs.all goodComponent = true → renderChars cs ≠ [] := by
  intro cs hne hall
  cases cs with
  | nil => exact absurd rfl hne
  | cons c tl =>
    simp only [List.all_cons, Bool.and_eq_true] at hall
    rw [renderChars]
    intro hc
    rcases List.append_eq_nil.mp hc with ⟨h1, _⟩
    exact renderCompChars_ne_nil c hall.1 h1

theorem lastNotB_rws_of_renderChars : ∀ (cs : List PatternComponent), cs ≠ [] →
    cs.all goodComponent = true →
    firstNotB isRustWhitespace (renderChars cs).reverse = true := by
  intro cs
  induction cs with
  | nil => intro h; exact absurd rfl h
  | cons c tl ih =>
    intro _ hall
    simp only [List.all_cons, Bool.and_eq_true] at hall
    by_cases htl : tl = []
    · subst htl
      simp only [renderChars, List.append_nil]
      exact lastNotB_rws_of_renderComp c hall.1
    · rw [renderChars, List.reverse_append,
        firstNotB_append_left _ _ _
          (by simpa using renderChars_ne_nil tl htl hall.2)]
      exact ih htl hall.2

/-- C4 (amended): for every nonempty pattern whose stored ellipsis
position is the one `check_ellipsis_pos` computes (every pattern built
through the constructors or the parser), whose dimension names are
valid identifiers, whose composites are nonempty, and in which no two
`Dim` components are adjacent, parsing the `Display` rendering yields
back the structurally equal pattern.  (Adjacent `Dim` components are
excluded because the rendering concatenates components with no
separator — see `c4_adjacent_dims_do_not_roundtrip`.) -/
theorem c4_display_parse_roundtrip (p : ShapePattern)
    (hne : p.components ≠ [])
    (hgood : p.components.all goodComponent = true)
    (hadj : noAdjacentDims p.components = true)
    (hpos : check_ellipsis_pos p.components = Except.ok p.ellipsis_pos) :
    parse_shape_pattern (ShapePattern.displayStr p) = Except.ok p := by
  obtain ⟨pos, cs⟩ := p
  simp only [ShapePattern.displayStr] at *
  have hdata : (componentsToString cs).data = renderChars cs := componentsToString_data cs
  have htrim : rustTrim (componentsToString cs) = componentsToString cs := by
    unfold rustTrim
    rw [hdata,
      dropWhile_eq_self_of_firstNot _ (headNotB_rws_of_renderChars cs hgood),
      dropWhile_eq_self_of_firstNot _ (lastNotB_rws_of_renderChars cs hne hgood),
      List.reverse_reverse, ← hdata]
  unfold parse_shape_pattern
  rw [htrim, hdata,
    componentsP_render cs ((renderChars cs).length + 1) hne hgood hadj
      (by have := renderChars_length_ge cs hgood; omega)]
  simp only [ShapePattern.new]
  rw [hpos]

/-- Closed instance of `c4_display_parse_roundtrip` at the pattern
`b ... (h p) c`: its display `"b...(h p )c"` parses back to the same
pattern. -/
theorem c4_display_parse_roundtrip_witness :
    parse_shape_pattern (ShapePattern.displayStr
      ⟨some 1, [PatternComponent.dim "b", PatternComponent.ellipsis,
        PatternComponent.composite ["h", "p"], PatternComponent.dim "c"]⟩) =
      Except.ok ⟨some 1, [PatternComponent.dim "b", PatternComponent.ellipsis,
        PatternComponent.composite ["h", "p"], PatternComponent.dim "c"]⟩ :=
  c4_display_parse_roundtrip
    ⟨some 1, [PatternComponent.dim "b", PatternComponent.ellipsis,
      PatternComponent.composite ["h", "p"], PatternComponent.dim "c"]⟩
    (by decide) (by decide) (by decide) (by decide)
